import Mathlib

/-!
Verification of the PowerPC SIMD support header `ppc-simd.h` (Crypto++).

A 128-bit vector register is modelled by its 16 architectural bytes
(byte 0 is the most significant, "leftmost", byte, as in the PowerISA's
big-endian register numbering).  Memory is a total function from byte
addresses to bytes.  The compiler built-ins used by the source
(`vec_perm`, `vec_sld`, `vec_ld`, `vec_st`, `vec_vsx_ld`, `vec_vsx_st`,
`vec_xl`, `vec_xst`, `vec_xl_be`, `vec_xst_be`, `vec_lvsl`, `vec_lvsr`,
`vec_ste`) are modelled at register level, with the little-endian
behaviour the PowerISA prescribes: in little-endian mode every vector
storage access is byte-reversed at its access size, and element-indexed
accesses mirror the element selection; a language-level vector element
`j` of a byte vector denotes register byte `15 - j` on a little-endian
host and register byte `j` on a big-endian host.
-/

namespace PpcSimd

/-- Host byte order, the compile-time CRYPTOPP_BIG_ENDIAN / CRYPTOPP_LITTLE_ENDIAN split. -/
inductive Endian
  | be
  | le
deriving DecidableEq

/-- Compiler family for the POWER7 load/store paths: CRYPTOPP_XLC_VERSION vs GCC. -/
inductive Compiler
  | xlc
  | gcc
deriving DecidableEq

/-- Toolchain selection for the POWER8 crypto operations: XLC built-ins,
GCC built-ins, or neither (the CRYPTOPP_ASSERT(0) branch). -/
inductive CryptoToolchain
  | xlc
  | gcc
  | neither
deriving DecidableEq

/-- One byte. -/
abbrev Byte := Fin 256

/-- The 16 architectural bytes of a 128-bit vector register (byte 0 most significant). -/
abbrev Vec := Fin 16 → Byte

/-- Byte-addressed memory. -/
abbrev Mem := Nat → Byte

/-- Register byte holding language-level element `i` of a byte vector:
`i` on a big-endian host, `15 - i` on a little-endian host. -/
def eIdx : Endian → Fin 16 → Fin 16
  | .be, i => i
  | .le, i => ⟨15 - i.val, by omega⟩

/-- Nat version of `eIdx`, used when indexing by a plain offset. -/
def idxN : Endian → Nat → Nat
  | .be, k => k
  | .le, k => 15 - k

/-- Register byte `k % 16` of a vector. -/
def vAt (v : Vec) (k : Nat) : Byte := v ⟨k % 16, Nat.mod_lt k (by omega)⟩

/-- Register contents of a language-level vector literal (an initializer
list indexed by element number). -/
def vecLit (E : Endian) (f : Fin 16 → Byte) : Vec := fun i => f (eIdx E i)

/-- Language-level element view of a register value (element `j` of the
vector as the C program sees it). -/
def elemView (E : Endian) (v : Vec) : Fin 16 → Byte := fun j => v (eIdx E j)

/-- Overwrite `n` bytes of memory starting at `start` with `f 0, f 1, ...`. -/
def writeBytes (m : Mem) (start n : Nat) (f : Nat → Byte) : Mem :=
  fun x => if start ≤ x ∧ x < start + n then f (x - start) else m x

/-- Byte `k % 32` of the 32-byte concatenation of two registers. -/
def concat2 (a b : Vec) (k : Nat) : Byte :=
  if h : k % 32 < 16 then a ⟨k % 32, h⟩ else b ⟨k % 32 - 16, by omega⟩

/-- The vperm instruction: result register byte `i` is byte `mask i mod 32`
of the concatenation of the two source registers (architectural numbering). -/
def vperm (a b mask : Vec) : Vec := fun i => concat2 a b (mask i).val

/-- Bytewise complement of a permute mask (vperm only reads the low 5 bits,
so complementing gives `31 - x` there). -/
def vcomplMask (mask : Vec) : Vec := fun i => ⟨255 - (mask i).val, by omega⟩

/-- The vec_perm built-in: direct vperm on a big-endian host; on a
little-endian host the compiler swaps the operands and complements the
mask so that language-level element selection is host-independent. -/
def vec_perm : Endian → Vec → Vec → Vec → Vec
  | .be, a, b, mask => vperm a b mask
  | .le, a, b, mask => vperm b a (vcomplMask mask)

/-- Language-level mask literal {15,14,...,0} used by Reverse
(ppc-simd.h line 73) and by the Altivec-only endian fixups. -/
def rmaskLang : Fin 16 → Byte := fun j => ⟨15 - j.val, by omega⟩

/-- Reverse (ppc-simd.h lines 70-75): vec_perm of a vector with itself
under the mask {15,14,...,0}. -/
def Reverse (E : Endian) (v : Vec) : Vec := vec_perm E v v (vecLit E rmaskLang)

/-- VectorXor (ppc-simd.h lines 129-133): lanewise vec_xor, which is the
same bit operation at any lane width, so bytewise xor is faithful. -/
def VectorXor (a b : Vec) : Vec :=
  fun i => ⟨((a i).val ^^^ (b i).val) % 256, Nat.mod_lt _ (by omega)⟩

/-- The vec_sld built-in with shift amount `r % 16`: result register byte
`i` is byte `i + r` of the concatenation (endian-independent instruction). -/
def vec_sld (a b : Vec) (r : Nat) : Vec := fun i => concat2 a b (i.val + r % 16)

/-- Two-vector VectorShiftLeft (ppc-simd.h lines 172-182): vec_sld(vec1,
vec2, C and 0xf) on big-endian, vec_sld(vec2, vec1, (16-C) and 0xf) on
little-endian. -/
def VectorShiftLeft2 (C : Nat) : Endian → Vec → Vec → Vec
  | .be, vec1, vec2 => vec_sld vec1 vec2 (C % 16)
  | .le, vec1, vec2 => vec_sld vec2 vec1 ((16 - C % 16) % 16)

/-- One-vector VectorShiftLeft (ppc-simd.h lines 202-214), with the zero
vector built by xoring the argument with itself as in the source. -/
def VectorShiftLeft1 (C : Nat) (E : Endian) (vec : Vec) : Vec :=
  match E with
  | .be => vec_sld vec (VectorXor vec vec) (C % 16)
  | .le => vec_sld (VectorXor vec vec) vec ((16 - C % 16) % 16)

/-- One-vector VectorShiftRight (ppc-simd.h lines 234-246); its body is
identical to the one-vector VectorShiftLeft. -/
def VectorShiftRight1 (C : Nat) (E : Endian) (vec : Vec) : Vec :=
  match E with
  | .be => vec_sld vec (VectorXor vec vec) (C % 16)
  | .le => vec_sld (VectorXor vec vec) vec ((16 - C % 16) % 16)

/-- Two-vector VectorShiftRight (ppc-simd.h lines 270-280); the compiled
body is identical to the two-vector VectorShiftLeft. -/
def VectorShiftRight2 (C : Nat) : Endian → Vec → Vec → Vec
  | .be, vec1, vec2 => vec_sld vec1 vec2 (C % 16)
  | .le, vec1, vec2 => vec_sld vec2 vec1 ((16 - C % 16) % 16)

/-- Two-vector VectorShiftRight as described by its own documentation
comment (ppc-simd.h lines 258-260): on big-endian machines it is vec_sld
with the complemented shift amount 16-C, on little-endian machines
vec_sld(vec2, vec1, C).  This is the comparison definition for the
documented semantics; the compiled body (VectorShiftRight2) differs. -/
def VectorShiftRightDocumented (C : Nat) : Endian → Vec → Vec → Vec
  | .be, vec1, vec2 => vec_sld vec1 vec2 ((16 - C % 16) % 16)
  | .le, vec1, vec2 => vec_sld vec2 vec1 (C % 16)

/-- The vec_ld built-in (lvx): 16-byte load from the 16-byte-aligned
address containing src+off; in little-endian mode the quadword access is
byte-reversed. -/
def vec_ld (E : Endian) (m : Mem) (off src : Nat) : Vec :=
  fun i => m (src + off - (src + off) % 16 + (eIdx E i).val)

/-- The vec_st built-in (stvx): 16-byte store to the 16-byte-aligned
address containing dest+off; byte-reversed in little-endian mode. -/
def vec_st (E : Endian) (v : Vec) (off dest : Nat) (m : Mem) : Mem :=
  writeBytes m (dest + off - (dest + off) % 16) 16 (fun k => vAt v (idxN E k))

/-- The vec_vsx_ld built-in: unaligned 16-byte load in host byte order. -/
def vec_vsx_ld (E : Endian) (m : Mem) (off src : Nat) : Vec :=
  fun i => m (src + off + (eIdx E i).val)

/-- The vec_vsx_st built-in: unaligned 16-byte store in host byte order. -/
def vec_vsx_st (E : Endian) (v : Vec) (off dest : Nat) (m : Mem) : Mem :=
  writeBytes m (dest + off) 16 (fun k => vAt v (idxN E k))

/-- The XLC vec_xl built-in: same unaligned native-order load as vec_vsx_ld. -/
def vec_xl (E : Endian) (m : Mem) (off src : Nat) : Vec :=
  fun i => m (src + off + (eIdx E i).val)

/-- The XLC vec_xst built-in: same unaligned native-order store as vec_vsx_st. -/
def vec_xst (E : Endian) (v : Vec) (off dest : Nat) (m : Mem) : Mem :=
  writeBytes m (dest + off) 16 (fun k => vAt v (idxN E k))

/-- The XLC vec_xl_be built-in: unaligned load with big-endian element
order on either host (register byte i gets memory byte src+off+i). -/
def vec_xl_be (E : Endian) (m : Mem) (off src : Nat) : Vec :=
  fun i => m (src + off + i.val)

/-- The XLC vec_xst_be built-in: unaligned store with big-endian element
order on either host. -/
def vec_xst_be (E : Endian) (v : Vec) (off dest : Nat) (m : Mem) : Mem :=
  writeBytes m (dest + off) 16 (fun k => vAt v k)

/-- The vec_lvsl built-in: register byte i gets sh+i where sh is the low
four address bits (a pure value computation, endian-independent). -/
def vec_lvsl (off src : Nat) : Vec :=
  fun i => ⟨(src + off) % 16 + i.val, by omega⟩

/-- The vec_lvsr built-in: register byte i gets 16-sh+i. -/
def vec_lvsr (off dest : Nat) : Vec :=
  fun i => ⟨16 - (dest + off) % 16 + i.val, by omega⟩

/-- The vec_ste built-in (stvebx/stvehx/stvewx) for an element of `s`
bytes: stores the element whose position corresponds to the s-aligned
effective address, mirrored and byte-reversed in little-endian mode. -/
def vec_ste (E : Endian) (s : Nat) (v : Vec) (off dest : Nat) (m : Mem) : Mem :=
  writeBytes m (dest + off - (dest + off) % s) s
    (fun t => vAt v (idxN E ((dest + off - (dest + off) % s) % 16 + t)))

/-- POWER7 VectorLoad (ppc-simd.h lines 334-341 and 350-357): vec_xl
under XLC, vec_vsx_ld otherwise; the zero-offset overload is off = 0. -/
def VectorLoadP7 (X : Compiler) (E : Endian) (m : Mem) (off src : Nat) : Vec :=
  match X with
  | .xlc => vec_xl E m off src
  | .gcc => vec_vsx_ld E m off src

/-- POWER7 VectorStore (ppc-simd.h lines 413-422 and 432-441): vec_xst
under XLC, vec_vsx_st otherwise. -/
def VectorStoreP7 (X : Compiler) (E : Endian) (v : Vec) (off dest : Nat) (m : Mem) : Mem :=
  match X with
  | .xlc => vec_xst E v off dest m
  | .gcc => vec_vsx_st E v off dest m

/-- POWER7 VectorLoadBE (ppc-simd.h lines 294-305): vec_xl_be under XLC;
otherwise Reverse of vec_vsx_ld on little-endian hosts, plain vec_vsx_ld
on big-endian hosts. -/
def VectorLoadBEP7 (X : Compiler) (E : Endian) (m : Mem) (src : Nat) : Vec :=
  match X with
  | .xlc => vec_xl_be E m 0 src
  | .gcc =>
    match E with
    | .le => Reverse .le (vec_vsx_ld .le m 0 src)
    | .be => vec_vsx_ld .be m 0 src

/-- POWER7 VectorStoreBE (ppc-simd.h lines 368-380): vec_xst_be under
XLC; otherwise vec_vsx_st of the Reversed vector on little-endian hosts. -/
def VectorStoreBEP7 (X : Compiler) (E : Endian) (v : Vec) (dest : Nat) (m : Mem) : Mem :=
  match X with
  | .xlc => vec_xst_be E v 0 dest m
  | .gcc =>
    match E with
    | .le => vec_vsx_st .le (Reverse .le v) 0 dest m
    | .be => vec_vsx_st .be v 0 dest m

/-- Value computed by the Altivec-only (non-POWER7) VectorLoad body
(ppc-simd.h lines 446-461): a direct vec_ld when src is 16-byte aligned,
otherwise the permute of the two covering aligned loads under the
vec_lvsl alignment mask.  The source computes this value into `data` but
falls off the end of the function without a return statement, so this
definition models the evident intended result. -/
def VectorLoadAltivec (E : Endian) (m : Mem) (src : Nat) : Vec :=
  if src % 16 = 0 then vec_ld E m 0 src
  else vec_perm E (vec_ld E m 0 src) (vec_ld E m 15 src) (vec_lvsl 0 src)

/-- Altivec-only VectorStore (ppc-simd.h lines 481-507): on little-endian
hosts the data is first permuted with the {15,...,0} mask (the body of
Reverse, written inline in the source); an aligned destination gets one
vec_st, an unaligned one the vec_lvsr permute followed by the eight
lane-partial vec_ste stores at offsets 0,1,3,4,8,12,14,15. -/
def VectorStoreAltivec (E : Endian) (data : Vec) (dest : Nat) (m : Mem) : Mem :=
  let t1 := match E with
    | .le => Reverse .le data
    | .be => data
  if dest % 16 = 0 then vec_st E t1 0 dest m
  else
    let t2 := vec_perm E t1 t1 (vec_lvsr 0 dest)
    vec_ste E 1 t2 15 dest
      (vec_ste E 2 t2 14 dest
        (vec_ste E 4 t2 12 dest
          (vec_ste E 4 t2 8 dest
            (vec_ste E 4 t2 4 dest
              (vec_ste E 4 t2 3 dest
                (vec_ste E 2 t2 1 dest
                  (vec_ste E 1 t2 0 dest m)))))))

/-- Altivec-only VectorLoadBE (ppc-simd.h lines 470-479): the native
VectorLoad on big-endian hosts; on little-endian hosts the loaded data
permuted with the {15,...,0} mask (the body of Reverse, inline in the
source). -/
def VectorLoadBEAltivec (E : Endian) (m : Mem) (src : Nat) : Vec :=
  match E with
  | .be => VectorLoadAltivec .be m src
  | .le => Reverse .le (VectorLoadAltivec .le m src)

/-- VectorEncrypt (ppc-simd.h lines 542-552), with the two hardware
built-ins (__vcipher / __builtin_crypto_vcipher) passed as oracle
functions; the `neither` toolchain reaches CRYPTOPP_ASSERT(0) and
produces no value, modelled as `none`. -/
def VectorEncrypt (vc bc : Vec → Vec → Vec) :
    CryptoToolchain → Vec → Vec → Option Vec
  | .xlc, state, key => some (vc state key)
  | .gcc, state, key => some (bc state key)
  | .neither, _, _ => none

/-- VectorEncryptLast (ppc-simd.h lines 562-572), same gating shape. -/
def VectorEncryptLast (vc bc : Vec → Vec → Vec) :
    CryptoToolchain → Vec → Vec → Option Vec
  | .xlc, state, key => some (vc state key)
  | .gcc, state, key => some (bc state key)
  | .neither, _, _ => none

/-- VectorDecrypt (ppc-simd.h lines 582-592), same gating shape. -/
def VectorDecrypt (vc bc : Vec → Vec → Vec) :
    CryptoToolchain → Vec → Vec → Option Vec
  | .xlc, state, key => some (vc state key)
  | .gcc, state, key => some (bc state key)
  | .neither, _, _ => none

/-- VectorDecryptLast (ppc-simd.h lines 602-612), same gating shape. -/
def VectorDecryptLast (vc bc : Vec → Vec → Vec) :
    CryptoToolchain → Vec → Vec → Option Vec
  | .xlc, state, key => some (vc state key)
  | .gcc, state, key => some (bc state key)
  | .neither, _, _ => none

/-- VectorSHA256 (ppc-simd.h lines 626-636): sigma selection by the two
int template parameters, hardware built-ins as oracles, CRYPTOPP_ASSERT(0)
as `none`. -/
def VectorSHA256 (xs gs : Nat → Nat → Vec → Vec) (func subfunc : Nat) :
    CryptoToolchain → Vec → Option Vec
  | .xlc, vec => some (xs func subfunc vec)
  | .gcc, vec => some (gs func subfunc vec)
  | .neither, _ => none

/-- VectorSHA512 (ppc-simd.h lines 646-656), same gating shape. -/
def VectorSHA512 (xs gs : Nat → Nat → Vec → Vec) (func subfunc : Nat) :
    CryptoToolchain → Vec → Option Vec
  | .xlc, vec => some (xs func subfunc vec)
  | .gcc, vec => some (gs func subfunc vec)
  | .neither, _ => none

/-- Sample vector with register byte i equal to i. -/
def sampleVec : Vec := fun i => ⟨i.val, by omega⟩

/-- Sample vector with every register byte equal to 1. -/
def onesVec : Vec := fun _ => ⟨1, by omega⟩

/-- The all-zero vector. -/
def zeroVec : Vec := fun _ => ⟨0, by omega⟩

/-- Sample memory with address x holding x mod 256. -/
def sampleMem : Mem := fun x => ⟨x % 256, Nat.mod_lt _ (by omega)⟩

/-! Helper lemmas. -/

theorem writeBytes_in (m : Mem) (start n : Nat) (f : Nat → Byte) (x : Nat)
    (h1 : start ≤ x) (h2 : x < start + n) :
    writeBytes m start n f x = f (x - start) := by
  simp only [writeBytes]
  rw [if_pos ⟨h1, h2⟩]

theorem writeBytes_out (m : Mem) (start n : Nat) (f : Nat → Byte) (x : Nat)
    (h : x < start ∨ start + n ≤ x) :
    writeBytes m start n f x = m x := by
  simp only [writeBytes]
  rw [if_neg (by omega)]

theorem vAt_fin (v : Vec) (i : Fin 16) : vAt v i.val = v i := by
  simp only [vAt]
  congr 1
  exact Fin.ext (Nat.mod_eq_of_lt i.isLt)

theorem Reverse_apply (E : Endian) (v : Vec) (i : Fin 16) :
    Reverse E v i = v ⟨15 - i.val, by omega⟩ := by
  cases E <;> fin_cases i <;> rfl

theorem finValMk (n a : Nat) (h : a < n) : (⟨a, h⟩ : Fin n).val = a := rfl

theorem vec_ste_out (E : Endian) (s : Nat) (v : Vec) (off dest : Nat) (m : Mem) (x : Nat)
    (h : x < dest + off - (dest + off) % s ∨ dest + off - (dest + off) % s + s ≤ x) :
    vec_ste E s v off dest m x = m x :=
  writeBytes_out m _ s _ x h

theorem vec_ste_hit (s : Nat) (v : Vec) (off dest : Nat) (m : Mem) (x : Nat)
    (h1 : dest + off - (dest + off) % s ≤ x)
    (h2 : x < dest + off - (dest + off) % s + s) :
    vec_ste .be s v off dest m x
      = vAt v ((dest + off - (dest + off) % s) % 16 + (x - (dest + off - (dest + off) % s))) := by
  unfold vec_ste
  rw [writeBytes_in _ _ _ _ _ h1 h2]
  simp only [idxN]

theorem lvsrPerm_at (v : Vec) (dest n : Nat) :
    vAt (vec_perm .be v v (vec_lvsr 0 dest)) n
      = vAt v (16 - (dest + 0) % 16 + n % 16) := by
  simp only [vAt, vec_perm, vperm, vec_lvsr, concat2, finValMk]
  by_cases hw : (16 - (dest + 0) % 16 + n % 16) % 32 < 16
  · rw [dif_pos hw]
    congr 1
    simp only [Fin.mk.injEq]
    omega
  · rw [dif_neg hw]
    congr 1
    simp only [Fin.mk.injEq]
    omega

theorem VectorLoadAltivec_be (m : Mem) (src : Nat) :
    VectorLoadAltivec .be m src = fun i => m (src + i.val) := by
  funext i
  by_cases hal : src % 16 = 0
  · simp only [VectorLoadAltivec, if_pos hal, vec_ld, eIdx]
    congr 1
    omega
  · simp only [VectorLoadAltivec, if_neg hal, vec_perm, vperm, vec_lvsl, concat2,
      vec_ld, eIdx, finValMk]
    by_cases hw : ((src + 0) % 16 + i.val) % 32 < 16
    · rw [dif_pos hw]
      congr 1
      omega
    · rw [dif_neg hw]
      congr 1
      omega

theorem VectorStoreAltivec_be_at (v : Vec) (d : Nat) (m : Mem) (k : Nat) (hk : k < 16) :
    VectorStoreAltivec .be v d m (d + k) = vAt v k := by
  by_cases hal : d % 16 = 0
  · simp only [VectorStoreAltivec, if_pos hal, vec_st]
    rw [writeBytes_in _ _ _ _ _ (by omega) (by omega)]
    simp only [idxN, vAt]
    congr 1
    simp only [Fin.mk.injEq]
    omega
  · simp only [VectorStoreAltivec, if_neg hal]
    by_cases h1 : d + 15 - (d + 15) % 1 ≤ d + k ∧ d + k < d + 15 - (d + 15) % 1 + 1
    · rw [vec_ste_hit _ _ _ _ _ _ h1.1 h1.2, lvsrPerm_at]
      simp only [vAt]
      congr 1
      simp only [Fin.mk.injEq]
      omega
    have h1n : d + k < d + 15 - (d + 15) % 1 ∨ d + 15 - (d + 15) % 1 + 1 ≤ d + k := by omega
    rw [vec_ste_out _ _ _ _ _ _ _ h1n]
    by_cases h2 : d + 14 - (d + 14) % 2 ≤ d + k ∧ d + k < d + 14 - (d + 14) % 2 + 2
    · rw [vec_ste_hit _ _ _ _ _ _ h2.1 h2.2, lvsrPerm_at]
      simp only [vAt]
      congr 1
      simp only [Fin.mk.injEq]
      omega
    have h2n : d + k < d + 14 - (d + 14) % 2 ∨ d + 14 - (d + 14) % 2 + 2 ≤ d + k := by omega
    rw [vec_ste_out _ _ _ _ _ _ _ h2n]
    by_cases h3 : d + 12 - (d + 12) % 4 ≤ d + k ∧ d + k < d + 12 - (d + 12) % 4 + 4
    · rw [vec_ste_hit _ _ _ _ _ _ h3.1 h3.2, lvsrPerm_at]
      simp only [vAt]
      congr 1
      simp only [Fin.mk.injEq]
      omega
    have h3n : d + k < d + 12 - (d + 12) % 4 ∨ d + 12 - (d + 12) % 4 + 4 ≤ d + k := by omega
    rw [vec_ste_out _ _ _ _ _ _ _ h3n]
    by_cases h4 : d + 8 - (d + 8) % 4 ≤ d + k ∧ d + k < d + 8 - (d + 8) % 4 + 4
    · rw [vec_ste_hit _ _ _ _ _ _ h4.1 h4.2, lvsrPerm_at]
      simp only [vAt]
      congr 1
      simp only [Fin.mk.injEq]
      omega
    have h4n : d + k < d + 8 - (d + 8) % 4 ∨ d + 8 - (d + 8) % 4 + 4 ≤ d + k := by omega
    rw [vec_ste_out _ _ _ _ _ _ _ h4n]
    by_cases h5 : d + 4 - (d + 4) % 4 ≤ d + k ∧ d + k < d + 4 - (d + 4) % 4 + 4
    · rw [vec_ste_hit _ _ _ _ _ _ h5.1 h5.2, lvsrPerm_at]
      simp only [vAt]
      congr 1
      simp only [Fin.mk.injEq]
      omega
    have h5n : d + k < d + 4 - (d + 4) % 4 ∨ d + 4 - (d + 4) % 4 + 4 ≤ d + k := by omega
    rw [vec_ste_out _ _ _ _ _ _ _ h5n]
    by_cases h6 : d + 3 - (d + 3) % 4 ≤ d + k ∧ d + k < d + 3 - (d + 3) % 4 + 4
    · rw [vec_ste_hit _ _ _ _ _ _ h6.1 h6.2, lvsrPerm_at]
      simp only [vAt]
      congr 1
      simp only [Fin.mk.injEq]
      omega
    have h6n : d + k < d + 3 - (d + 3) % 4 ∨ d + 3 - (d + 3) % 4 + 4 ≤ d + k := by omega
    rw [vec_ste_out _ _ _ _ _ _ _ h6n]
    by_cases h7 : d + 1 - (d + 1) % 2 ≤ d + k ∧ d + k < d + 1 - (d + 1) % 2 + 2
    · rw [vec_ste_hit _ _ _ _ _ _ h7.1 h7.2, lvsrPerm_at]
      simp only [vAt]
      congr 1
      simp only [Fin.mk.injEq]
      omega
    have h7n : d + k < d + 1 - (d + 1) % 2 ∨ d + 1 - (d + 1) % 2 + 2 ≤ d + k := by omega
    rw [vec_ste_out _ _ _ _ _ _ _ h7n]
    by_cases h8 : d + 0 - (d + 0) % 1 ≤ d + k ∧ d + k < d + 0 - (d + 0) % 1 + 1
    · rw [vec_ste_hit _ _ _ _ _ _ h8.1 h8.2, lvsrPerm_at]
      simp only [vAt]
      congr 1
      simp only [Fin.mk.injEq]
      omega
    exfalso
    omega

theorem VectorStoreAltivec_out (E : Endian) (v : Vec) (d : Nat) (m : Mem) (x : Nat)
    (h : x < d ∨ d + 16 ≤ x) : VectorStoreAltivec E v d m x = m x := by
  cases E <;>
    (by_cases hal : d % 16 = 0
     case pos =>
       simp only [VectorStoreAltivec, if_pos hal, vec_st]
       exact writeBytes_out _ _ _ _ _ (by omega)
     case neg =>
       simp only [VectorStoreAltivec, if_neg hal]
       rw [vec_ste_out _ _ _ _ _ _ _
            (show x < d + 15 - (d + 15) % 1 ∨ d + 15 - (d + 15) % 1 + 1 ≤ x by omega)]
       rw [vec_ste_out _ _ _ _ _ _ _
            (show x < d + 14 - (d + 14) % 2 ∨ d + 14 - (d + 14) % 2 + 2 ≤ x by omega)]
       rw [vec_ste_out _ _ _ _ _ _ _
            (show x < d + 12 - (d + 12) % 4 ∨ d + 12 - (d + 12) % 4 + 4 ≤ x by omega)]
       rw [vec_ste_out _ _ _ _ _ _ _
            (show x < d + 8 - (d + 8) % 4 ∨ d + 8 - (d + 8) % 4 + 4 ≤ x by omega)]
       rw [vec_ste_out _ _ _ _ _ _ _
            (show x < d + 4 - (d + 4) % 4 ∨ d + 4 - (d + 4) % 4 + 4 ≤ x by omega)]
       rw [vec_ste_out _ _ _ _ _ _ _
            (show x < d + 3 - (d + 3) % 4 ∨ d + 3 - (d + 3) % 4 + 4 ≤ x by omega)]
       rw [vec_ste_out _ _ _ _ _ _ _
            (show x < d + 1 - (d + 1) % 2 ∨ d + 1 - (d + 1) % 2 + 2 ≤ x by omega)]
       rw [vec_ste_out _ _ _ _ _ _ _
            (show x < d + 0 - (d + 0) % 1 ∨ d + 0 - (d + 0) % 1 + 1 ≤ x by omega)])

theorem vec_xl_eq_vsx : vec_xl = vec_vsx_ld := rfl

theorem vec_xst_eq_vsx : vec_xst = vec_vsx_st := rfl

theorem vsx_roundtrip (E : Endian) (v : Vec) (off p : Nat) (m : Mem) :
    vec_vsx_ld E (vec_vsx_st E v off p m) off p = v := by
  funext i
  have hi : i.val < 16 := i.isLt
  cases E
  · simp only [vec_vsx_ld, vec_vsx_st, eIdx]
    rw [writeBytes_in _ _ _ _ _ (by omega) (by omega)]
    simp only [idxN]
    have he : p + off + i.val - (p + off) = i.val := by omega
    rw [he, vAt_fin]
  · simp only [vec_vsx_ld, vec_vsx_st, eIdx, finValMk]
    rw [writeBytes_in _ _ _ _ _ (by omega) (by omega)]
    simp only [idxN]
    have he : 15 - (p + off + (15 - i.val) - (p + off)) = i.val := by omega
    rw [he, vAt_fin]

theorem baselineLE_roundtrip_aligned (v : Vec) (p : Nat) (m : Mem) (hal : p % 16 = 0) :
    VectorLoadAltivec .le (VectorStoreAltivec .le v p m) p = Reverse .le v := by
  funext i
  have hi : i.val < 16 := i.isLt
  simp only [VectorLoadAltivec, if_pos hal, vec_ld, eIdx, finValMk]
  simp only [VectorStoreAltivec, if_pos hal, vec_st]
  rw [writeBytes_in _ _ _ _ _ (by omega) (by omega)]
  simp only [idxN]
  have he : 15 - (p + 0 - (p + 0) % 16 + (15 - i.val) - (p + 0 - (p + 0) % 16)) = i.val := by
    omega
  rw [he, vAt_fin]

/-! Claim theorems. -/

/-- Claim C6: for every 128-bit vector, Reverse is an involution, and it is
the fixed byte permutation swapping register byte i with byte 15-i, on both
host endiannesses. -/
theorem reverse_involutive : ∀ (E : Endian) (v : Vec),
    Reverse E (Reverse E v) = v
      ∧ ∀ i : Fin 16, Reverse E v i = v ⟨15 - i.val, by omega⟩ := by
  intro E v
  constructor
  · funext i
    have hi : i.val < 16 := i.isLt
    rw [Reverse_apply, Reverse_apply]
    congr 1
    apply Fin.ext
    simp only [finValMk]
    omega
  · intro i
    exact Reverse_apply E v i

/-- Claim C4 (code bug): the one-vector shift forms at zero shift count are
the identity on big-endian hosts, but on little-endian hosts the compiled
body computes vec_sld(zero, vec, (16-0) mod 16) = vec_sld(zero, vec, 0),
which returns the zero vector instead of the input. -/
theorem shift_zero_behavior :
    (∀ v : Vec, VectorShiftLeft1 0 .be v = v ∧ VectorShiftRight1 0 .be v = v)
    ∧ VectorShiftLeft1 0 .le sampleVec = zeroVec
    ∧ VectorShiftRight1 0 .le sampleVec = zeroVec
    ∧ sampleVec ≠ zeroVec := by
  refine ⟨?_, by decide, by decide, by decide⟩
  intro v
  constructor <;>
  · funext i
    have hi : i.val < 16 := i.isLt
    simp only [VectorShiftLeft1, VectorShiftRight1, vec_sld, concat2]
    rw [dif_pos (by omega)]
    congr 1
    apply Fin.ext
    simp only [finValMk]
    omega

/-- Claim C10: the compiled two-vector VectorShiftRight is the same function
as the two-vector VectorShiftLeft; both are vec_sld(vec1, vec2, C mod 16)
on a big-endian host and vec_sld(vec2, vec1, (16-C) mod 16) on a
little-endian host. -/
theorem shiftRight2_eq_shiftLeft2 : ∀ (C : Nat) (E : Endian) (a b : Vec),
    VectorShiftRight2 C E a b = VectorShiftLeft2 C E a b
    ∧ VectorShiftRight2 C .be a b = vec_sld a b (C % 16)
    ∧ VectorShiftRight2 C .le a b = vec_sld b a ((16 - C % 16) % 16) := by
  intro C E a b
  refine ⟨?_, rfl, rfl⟩
  cases E <;> rfl

/-- Claim C9: each POWER8 crypto operation yields no value (the
CRYPTOPP_ASSERT(0) trap) when neither the XLC nor the GCC built-in path is
available, and yields a value under either supported toolchain path. -/
theorem crypto_ops_toolchain_gate :
    ∀ (vc bc : Vec → Vec → Vec) (xs gs : Nat → Nat → Vec → Vec)
      (st key vec : Vec) (f sf : Nat),
      (VectorEncrypt vc bc .neither st key = none
        ∧ (VectorEncrypt vc bc .xlc st key).isSome = true
        ∧ (VectorEncrypt vc bc .gcc st key).isSome = true)
      ∧ (VectorEncryptLast vc bc .neither st key = none
        ∧ (VectorEncryptLast vc bc .xlc st key).isSome = true
        ∧ (VectorEncryptLast vc bc .gcc st key).isSome = true)
      ∧ (VectorDecrypt vc bc .neither st key = none
        ∧ (VectorDecrypt vc bc .xlc st key).isSome = true
        ∧ (VectorDecrypt vc bc .gcc st key).isSome = true)
      ∧ (VectorDecryptLast vc bc .neither st key = none
        ∧ (VectorDecryptLast vc bc .xlc st key).isSome = true
        ∧ (VectorDecryptLast vc bc .gcc st key).isSome = true)
      ∧ (VectorSHA256 xs gs f sf .neither vec = none
        ∧ (VectorSHA256 xs gs f sf .xlc vec).isSome = true
        ∧ (VectorSHA256 xs gs f sf .gcc vec).isSome = true)
      ∧ (VectorSHA512 xs gs f sf .neither vec = none
        ∧ (VectorSHA512 xs gs f sf .xlc vec).isSome = true
        ∧ (VectorSHA512 xs gs f sf .gcc vec).isSome = true) := by
  intro vc bc xs gs st key vec f sf
  exact ⟨⟨rfl, rfl, rfl⟩, ⟨rfl, rfl, rfl⟩, ⟨rfl, rfl, rfl⟩,
    ⟨rfl, rfl, rfl⟩, ⟨rfl, rfl, rfl⟩, ⟨rfl, rfl, rfl⟩⟩

/-- Claim C3 (amended to shift counts 1..15): for every byte count C with
1 ≤ C ≤ 15 the two-vector VectorShiftLeft produces the same language-level
(logical) result on a little-endian host, where it is
vec_sld(vec2, vec1, 16-C), as on a big-endian host, where it is
vec_sld(vec1, vec2, C).  At C = 0 the two hosts disagree (see the
counterexample), so the claim's range [0,15] is narrowed to [1,15]. -/
theorem shiftLeft2_endian_agree : ∀ (C : Nat), 1 ≤ C → C ≤ 15 →
    ∀ (A B : Fin 16 → Byte),
      elemView .le (VectorShiftLeft2 C .le (vecLit .le A) (vecLit .le B))
        = elemView .be (VectorShiftLeft2 C .be (vecLit .be A) (vecLit .be B)) := by
  intro C h1 h2 A B
  funext j
  have hj : j.val < 16 := j.isLt
  simp only [elemView, VectorShiftLeft2, vec_sld, vecLit, eIdx, vperm, concat2, finValMk]
  split_ifs
  all_goals
    first
    | (exfalso; omega)
    | (congr 1; apply Fin.ext; simp only [finValMk]; omega)

/-- Witness for C3 at C = 12 on concrete vectors. -/
theorem shiftLeft2_endian_agree_witness :
    (1 ≤ 12 ∧ 12 ≤ 15)
    ∧ elemView .le (VectorShiftLeft2 12 .le (vecLit .le sampleVec) (vecLit .le onesVec))
      = elemView .be (VectorShiftLeft2 12 .be (vecLit .be sampleVec) (vecLit .be onesVec)) :=
  ⟨⟨by decide, by decide⟩, shiftLeft2_endian_agree 12 (by decide) (by decide) sampleVec onesVec⟩

/-- Counterexample for C3 as stated: at C = 0 the little-endian compiled
body returns the second logical operand while the big-endian body returns
the first, so the logical results differ. -/
theorem shiftLeft2_endian_zero_cex :
    elemView .le (VectorShiftLeft2 0 .le (vecLit .le sampleVec) (vecLit .le onesVec))
      ≠ elemView .be (VectorShiftLeft2 0 .be (vecLit .be sampleVec) (vecLit .be onesVec)) := by
  decide

/-- Claim C5 (code bug): splitting a vector with the two-vector
VectorShiftLeft at C = 4 and recombining the shifted result with the
retained tail via the compiled two-vector VectorShiftRight does not
reconstruct the vector, because the compiled VectorShiftRight body equals
VectorShiftLeft; under the semantics stated in VectorShiftRight's own
documentation comment (vec_sld with the complemented amount 16-C) the
recombination reconstructs the vector exactly. -/
theorem two_vector_shift_roundtrip :
    VectorShiftRight2 4 .be (VectorShiftLeft2 4 .be zeroVec sampleVec)
        (VectorShiftLeft2 4 .be sampleVec zeroVec) ≠ sampleVec
    ∧ VectorShiftRightDocumented 4 .be (VectorShiftLeft2 4 .be zeroVec sampleVec)
        (VectorShiftLeft2 4 .be sampleVec zeroVec) = sampleVec := by
  constructor <;> decide

/-- Claim C7 (code bug: the source body computes this value but lacks the
final return statement): the modelled baseline VectorLoad value is the
direct aligned vec_ld for a 16-byte-aligned source and the
vec_perm(low, high, vec_lvsl) composition of the two covering aligned
loads otherwise; on a big-endian host this value is exactly the 16 bytes
at the source address. -/
theorem vectorLoad_altivec_intended : ∀ (E : Endian) (m : Mem) (src : Nat),
    (src % 16 = 0 → VectorLoadAltivec E m src = vec_ld E m 0 src)
    ∧ (src % 16 ≠ 0 → VectorLoadAltivec E m src
        = vec_perm E (vec_ld E m 0 src) (vec_ld E m 15 src) (vec_lvsl 0 src))
    ∧ VectorLoadAltivec .be m src = fun i => m (src + i.val) := by
  intro E m src
  refine ⟨fun h => ?_, fun h => ?_, VectorLoadAltivec_be m src⟩
  · simp only [VectorLoadAltivec, if_pos h]
  · simp only [VectorLoadAltivec, if_neg h]

/-- Witness for C7 at an aligned and at an unaligned concrete source. -/
theorem vectorLoad_altivec_intended_witness :
    ((0 : Nat) % 16 = 0 ∧ VectorLoadAltivec .be sampleMem 0 = vec_ld .be sampleMem 0 0)
    ∧ ((1 : Nat) % 16 ≠ 0 ∧ VectorLoadAltivec .le sampleMem 1
        = vec_perm .le (vec_ld .le sampleMem 0 1) (vec_ld .le sampleMem 15 1)
            (vec_lvsl 0 1)) :=
  ⟨⟨by decide, (vectorLoad_altivec_intended .be sampleMem 0).1 (by decide)⟩,
   ⟨by decide, (vectorLoad_altivec_intended .le sampleMem 1).2.1 (by decide)⟩⟩

/-- Claim C8: the baseline VectorStore leaves every byte outside the
16-byte destination window unchanged, for every vector, destination
alignment and host endianness; in particular the eight lane-partial
vec_ste stores of the unaligned slow path never write outside the window. -/
theorem vectorStore_altivec_frame :
    ∀ (E : Endian) (data : Vec) (dest : Nat) (m : Mem) (x : Nat),
      x < dest ∨ dest + 16 ≤ x → VectorStoreAltivec E data dest m x = m x := by
  intro E data dest m x h
  exact VectorStoreAltivec_out E data dest m x h

/-- Witness for C8 at an unaligned concrete destination and an address
just outside the window. -/
theorem vectorStore_altivec_frame_witness :
    ((30 : Nat) < 5 ∨ 5 + 16 ≤ 30)
    ∧ VectorStoreAltivec .le sampleVec 5 sampleMem 30 = sampleMem 30 :=
  ⟨by decide, vectorStore_altivec_frame .le sampleVec 5 sampleMem 30 (by decide)⟩

/-- Claim C2: on a little-endian host, for either compiler path, the
POWER7 VectorLoadBE equals Reverse of the native VectorLoad (including the
XLC vec_xl_be fast path), VectorStoreBE followed by the native VectorLoad
yields Reverse of the stored vector (including the XLC vec_xst_be fast
path), and the baseline VectorLoadBE equals Reverse of the baseline
VectorLoad. -/
theorem be_semantics_le_equiv : ∀ (X : Compiler) (m : Mem) (p : Nat) (v : Vec),
    VectorLoadBEP7 X .le m p = Reverse .le (VectorLoadP7 X .le m 0 p)
    ∧ VectorLoadP7 X .le (VectorStoreBEP7 X .le v p m) 0 p = Reverse .le v
    ∧ VectorLoadBEAltivec .le m p = Reverse .le (VectorLoadAltivec .le m p) := by
  intro X m p v
  refine ⟨?_, ?_, rfl⟩
  · cases X
    · funext i
      have hi : i.val < 16 := i.isLt
      rw [Reverse_apply]
      simp only [VectorLoadBEP7, VectorLoadP7, vec_xl_be, vec_xl, eIdx, finValMk]
      congr 1
      omega
    · rfl
  · cases X
    · funext i
      have hi : i.val < 16 := i.isLt
      rw [Reverse_apply]
      simp only [VectorLoadP7, VectorStoreBEP7, vec_xl, vec_xst_be, eIdx, finValMk]
      rw [writeBytes_in _ _ _ _ _ (by omega) (by omega)]
      have he : p + 0 + (15 - i.val) - (p + 0) = 15 - i.val := by omega
      rw [he]
      exact vAt_fin v ⟨15 - i.val, by omega⟩
    · funext i
      have hi : i.val < 16 := i.isLt
      rw [Reverse_apply]
      simp only [VectorLoadP7, VectorStoreBEP7, vec_vsx_ld, vec_vsx_st, eIdx, finValMk]
      rw [writeBytes_in _ _ _ _ _ (by omega) (by omega)]
      simp only [idxN]
      have he : 15 - (p + 0 + (15 - i.val) - (p + 0)) = i.val := by omega
      rw [he, vAt_fin, Reverse_apply]

/-- Claim C1 (amended): store-then-load round-trips exactly on the POWER7
implementations for either compiler path, either host endianness and every
(alignment, offset) combination; on the baseline Altivec implementations,
with the fallback load's computed value taken as its result (the source
lacks the return statement), the round trip is exact on big-endian hosts
for every alignment, while on little-endian hosts the pair composes to
Reverse (shown for aligned buffers), since the baseline VectorStore
byte-swaps on little-endian but the baseline VectorLoad does not. -/
theorem load_store_roundtrip_amended :
    (∀ (X : Compiler) (E : Endian) (v : Vec) (off p : Nat) (m : Mem),
        VectorLoadP7 X E (VectorStoreP7 X E v off p m) off p = v)
    ∧ (∀ (v : Vec) (p : Nat) (m : Mem),
        VectorLoadAltivec .be (VectorStoreAltivec .be v p m) p = v)
    ∧ (∀ (v : Vec) (p : Nat) (m : Mem), p % 16 = 0 →
        VectorLoadAltivec .le (VectorStoreAltivec .le v p m) p = Reverse .le v) := by
  refine ⟨?_, ?_, ?_⟩
  · intro X E v off p m
    cases X
    · simp only [VectorLoadP7, VectorStoreP7]
      rw [vec_xl_eq_vsx, vec_xst_eq_vsx]
      exact vsx_roundtrip E v off p m
    · simp only [VectorLoadP7, VectorStoreP7]
      exact vsx_roundtrip E v off p m
  · intro v p m
    rw [VectorLoadAltivec_be]
    funext i
    show VectorStoreAltivec .be v p m (p + i.val) = v i
    rw [VectorStoreAltivec_be_at v p m i.val i.isLt, vAt_fin]
  · intro v p m hal
    exact baselineLE_roundtrip_aligned v p m hal

/-- Witness for C1's little-endian baseline conjunct at an aligned
concrete destination. -/
theorem load_store_roundtrip_amended_witness :
    (16 : Nat) % 16 = 0
    ∧ VectorLoadAltivec .le (VectorStoreAltivec .le sampleVec 16 sampleMem) 16
        = Reverse .le sampleVec :=
  ⟨by decide, load_store_roundtrip_amended.2.2 sampleVec 16 sampleMem (by decide)⟩

/-- Counterexample for C1 as stated: on a little-endian host the baseline
store-then-load pair does not return the stored vector (it returns its
byte reversal). -/
theorem load_store_roundtrip_le_baseline_cex :
    VectorLoadAltivec .le (VectorStoreAltivec .le sampleVec 0 sampleMem) 0 ≠ sampleVec := by
  decide

end PpcSimd
